import Mathlib

/-!
Shallow embedding of the J2MEBrowser repository.

Source files embedded:
* `src/src/utils/jarParser.ts` — manifest / JAR / JAD parsing
  (`parseManifest`, `parseMIDletEntries`, `parseScreenSize`, `parseJAR`,
  `parseJAD`).
* the CheerpJ lifecycle adapter hook (`useCheerpJ`): `loadScript`,
  `initialize`, `loadJAR`, `stop`, `sendKeyEvent`.

JavaScript strings are modelled as `List Char`.  A JS object used as a
string-keyed record is modelled as an association list in insertion
order, with assignment overwriting the existing binding in place.
JS truthiness of a string (`""`/`undefined` falsy) is modelled by a total
lookup that returns `[]` both for an absent key and for a key bound to
the empty string — the two are indistinguishable to every consumer in
the source, which only ever tests truthiness of the looked-up value.
-/

namespace J2ME

/-- Characters stripped by the JS `String.prototype.trim` calls in the
parser (the source text only ever contains ASCII whitespace, so the
ASCII subset of the JS definition is embedded). -/
def isWsChar (c : Char) : Bool :=
  c = ' ' || c = '\t' || c = '\n' || c = '\r' || c = '\x0b' || c = '\x0c'

/-- JS `s.trim()`: drop whitespace from both ends. -/
def jsTrimL (l : List Char) : List Char :=
  ((l.dropWhile isWsChar).reverse.dropWhile isWsChar).reverse

/-- JS `content.split(/\r?\n/)` from `parseManifest` (jarParser.ts line 33):
split at every `\r\n` or lone `\n`; a `\r` not followed by `\n` stays in
its line. -/
def splitLinesL : List Char → List (List Char)
  | [] => [[]]
  | '\r' :: '\n' :: rest => [] :: splitLinesL rest
  | '\n' :: rest => [] :: splitLinesL rest
  | c :: rest => (splitLinesL rest).modifyHead (fun l => c :: l)

/-- JS `s.split(sep)` for a one-character separator (used with `","`
and `"x"` in the source). -/
def splitOnCharL (sep : Char) : List Char → List (List Char)
  | [] => [[]]
  | c :: rest =>
    if c = sep then [] :: splitOnCharL sep rest
    else (splitOnCharL sep rest).modifyHead (fun l => c :: l)

/-- JS `a || b` on strings: `b` if `a` is empty (falsy), else `a`. -/
def jsOr (a b : List Char) : List Char :=
  if a = [] then b else a

/-- JS object assignment `m[k] = v`: overwrite the existing binding in
place, else append (JS objects keep first-insertion key order). -/
def setKV (m : List (List Char × List Char)) (k v : List Char) :
    List (List Char × List Char) :=
  match m with
  | [] => [(k, v)]
  | kv :: rest => if kv.1 = k then (k, v) :: rest else kv :: setKV rest k v

/-- JS `manifest[k]` followed by the truthiness tests of the source:
the value of the first binding of `k`, `[]` when the key is absent. -/
def lookupD (m : List (List Char × List Char)) (k : List Char) : List Char :=
  match m.find? (fun kv => kv.1 == k) with
  | some kv => kv.2
  | none => []

/-- Loop state of `parseManifest` (jarParser.ts lines 29–31):
the record built so far, `currentKey`, `currentValue`. -/
structure MState where
  manifest : List (List Char × List Char)
  curKey : List Char
  curValue : List Char
deriving Repr, DecidableEq

/-- One iteration of the `for (const line of lines)` loop of
`parseManifest` (jarParser.ts lines 35–49). -/
def manifestStepL (st : MState) (line : List Char) : MState :=
  if line.head? = some ' ' then
    { st with curValue := st.curValue ++ line.tail }
  else
    if line.contains ':' then
      let m1 := if st.curKey = [] then st.manifest
                else setKV st.manifest st.curKey (jsTrimL st.curValue)
      let ci := line.findIdx (fun c => c = ':')
      { manifest := m1, curKey := jsTrimL (line.take ci),
        curValue := line.drop (ci + 1) }
    else st

/-- The `// Save last entry` epilogue of `parseManifest`
(jarParser.ts lines 52–54). -/
def finishManifest (st : MState) : List (List Char × List Char) :=
  if st.curKey = [] then st.manifest
  else setKV st.manifest st.curKey (jsTrimL st.curValue)

/-- `parseManifest` (jarParser.ts lines 28–57). -/
def parseManifestL (content : List Char) : List (List Char × List Char) :=
  finishManifest ((splitLinesL content).foldl manifestStepL ⟨[], [], []⟩)

/-- A manifest text assembled from a list of lines with a given line
terminator between consecutive lines (used to state that `\r\n` and
`\n` endings parse identically). -/
def joinWithL (sep : List Char) : List (List Char) → List Char
  | [] => []
  | [l] => l
  | l :: ls => l ++ sep ++ joinWithL sep ls

/-- Decimal digit character, as produced by JS number-to-string
conversion (only ever applied to `n % 10`). -/
def decDigitChar : Nat → Char
  | 0 => '0' | 1 => '1' | 2 => '2' | 3 => '3' | 4 => '4'
  | 5 => '5' | 6 => '6' | 7 => '7' | 8 => '8' | _ => '9'

/-- Fuel-driven decimal rendering of a positive natural (most
significant digit first).  The fuel only serves Lean's termination
checker; `natToStrL` always supplies enough. -/
def natToStrAux : Nat → Nat → List Char
  | 0, _ => []
  | _ + 1, 0 => []
  | fuel + 1, n + 1 =>
    natToStrAux fuel ((n + 1) / 10) ++ [decDigitChar ((n + 1) % 10)]

/-- JS template-literal rendering of a natural number (`${i}`). -/
def natToStrL (n : Nat) : List Char :=
  if n = 0 then ['0'] else natToStrAux (n + 1) n

/-- The manifest key `MIDlet-${i}` (jarParser.ts lines 67–68). -/
def midletKey (i : Nat) : List Char :=
  "MIDlet-".data ++ natToStrL i

/-- `MIDletInfo` (jarParser.ts lines 8–12). -/
structure MIDletInfo where
  name : List Char
  icon : Option (List Char)
  className : List Char
deriving Repr, DecidableEq, Inhabited

/-- Body of the `while` loop of `parseMIDletEntries`
(jarParser.ts lines 68–75): split the entry on `","`, trim the parts,
apply the `||` fallbacks. -/
def mkMIDletEntry (i : Nat) (entry : List Char) : MIDletInfo :=
  let parts := (splitOnCharL ',' entry).map jsTrimL
  { name := jsOr (parts.getD 0 []) ("MIDlet ".data ++ natToStrL i)
    icon := if parts.getD 1 [] = [] then none else some (parts.getD 1 [])
    className := parts.getD 2 [] }

/-- The `while (manifest[`MIDlet-${i}`])` loop of `parseMIDletEntries`
(jarParser.ts lines 67–78), driven by fuel.  The fuel only serves
Lean's termination checker; `parseMIDletEntries` supplies
`m.length + 1`, which is provably enough because the keys
`MIDlet-1, MIDlet-2, …` are pairwise distinct. -/
def parseMIDletEntriesGo (m : List (List Char × List Char)) :
    Nat → Nat → List MIDletInfo
  | _, 0 => []
  | i, fuel + 1 =>
    if lookupD m (midletKey i) = [] then []
    else mkMIDletEntry i (lookupD m (midletKey i)) ::
      parseMIDletEntriesGo m (i + 1) fuel

/-- `parseMIDletEntries` (jarParser.ts lines 63–81). -/
def parseMIDletEntries (m : List (List Char × List Char)) :
    List MIDletInfo :=
  parseMIDletEntriesGo m 1 (m.length + 1)

/-- JS `parseInt(s, 10)` restricted to what reaches it in the source:
skip leading whitespace, optional sign, then a leading run of decimal
digits; `none` models `NaN`. -/
def decDigitsVal (ds : List Char) : Nat :=
  ds.foldl (fun a c => 10 * a + (c.toNat - 48)) 0

/-- See `decDigitsVal`; `none` models `NaN`. -/
def jsParseInt (s : List Char) : Option Int :=
  let t := s.dropWhile isWsChar
  match t with
  | '-' :: rest =>
    let ds := rest.takeWhile (fun c => c.isDigit)
    if ds = [] then none else some (-(decDigitsVal ds : Int))
  | '+' :: rest =>
    let ds := rest.takeWhile (fun c => c.isDigit)
    if ds = [] then none else some (decDigitsVal ds)
  | _ =>
    let ds := t.takeWhile (fun c => c.isDigit)
    if ds = [] then none else some (decDigitsVal ds)

/-- Result of `parseScreenSize`; `none` in a field models a `NaN`
width/height (possible in JS when the manifest value is not numeric). -/
structure ScreenSize where
  width : Option Int
  height : Option Int
deriving Repr, DecidableEq

/-- `parseScreenSize` (jarParser.ts lines 86–105). -/
def parseScreenSize (m : List (List Char × List Char)) : ScreenSize :=
  let widthStr := jsOr (lookupD m "MIDlet-Screen-Width".data)
    ((splitOnCharL 'x' (lookupD m "Nokia-MIDlet-Canvas-Size".data)).getD 0 [])
  let heightStr := jsOr (lookupD m "MIDlet-Screen-Height".data)
    ((splitOnCharL 'x' (lookupD m "Nokia-MIDlet-Canvas-Size".data)).getD 1 [])
  { width := if widthStr = [] then some 240 else jsParseInt widthStr
    height := if heightStr = [] then some 320 else jsParseInt heightStr }

/-- `JARManifest` (jarParser.ts lines 14–23); the `error` field of the
screen-size numbers is carried as `Option Int` (see `ScreenSize`). -/
structure JARManifest where
  midletName : List Char
  midletVersion : List Char
  midletVendor : List Char
  midlets : List MIDletInfo
  screenWidth : Option Int
  screenHeight : Option Int
  className : List Char
  rawManifest : List (List Char × List Char)
deriving Repr, DecidableEq

/-- JS `midlets[0]?.className` under `||`: the first entry's class
name, `[]` (falsy, like `undefined`) when the list is empty. -/
def headClassNameD (midlets : List MIDletInfo) : List Char :=
  match midlets with
  | [] => []
  | e :: _ => e.className

/-- JS `s.replace(pat, repl)` for a plain (non-regex, nonempty) pattern:
replace the first occurrence only (used with `".jar"`). -/
def replaceFirstL (pat repl : List Char) : List Char → List Char
  | [] => []
  | c :: rest =>
    if pat.isPrefixOf (c :: rest) then repl ++ (c :: rest).drop pat.length
    else c :: replaceFirstL pat repl rest

/-- `parseJAD` (jarParser.ts lines 142–157). -/
def parseJAD (content : List Char) : JARManifest :=
  let rawManifest := parseManifestL content
  let midlets := parseMIDletEntries rawManifest
  let ss := parseScreenSize rawManifest
  { midletName := jsOr (lookupD rawManifest "MIDlet-Name".data) "Unknown".data
    midletVersion := jsOr (lookupD rawManifest "MIDlet-Version".data) "1.0".data
    midletVendor := jsOr (lookupD rawManifest "MIDlet-Vendor".data) "Unknown".data
    midlets := midlets
    screenWidth := ss.width
    screenHeight := ss.height
    className := jsOr (headClassNameD midlets) "Start".data
    rawManifest := rawManifest }

/-- `parseJAR` (jarParser.ts lines 110–137).  The already-decoded ZIP
directory is modelled as an association list from entry path to entry
text; `contents.file("META-INF/MANIFEST.MF")` is the first binding of
that fixed path, and a thrown `Error` is `Except.error` of its
message. -/
def parseJAR (archive : List (List Char × List Char))
    (fileName : List Char) : Except (List Char) JARManifest :=
  match archive.find? (fun e => e.1 == "META-INF/MANIFEST.MF".data) with
  | none => Except.error "Invalid JAR: MANIFEST.MF not found".data
  | some mf =>
    let rawManifest := parseManifestL mf.2
    let midlets := parseMIDletEntries rawManifest
    let ss := parseScreenSize rawManifest
    Except.ok
      { midletName := jsOr (lookupD rawManifest "MIDlet-Name".data)
          (replaceFirstL ".jar".data [] fileName)
        midletVersion := jsOr (lookupD rawManifest "MIDlet-Version".data) "1.0".data
        midletVendor := jsOr (lookupD rawManifest "MIDlet-Vendor".data) "Unknown".data
        midlets := midlets
        screenWidth := ss.width
        screenHeight := ss.height
        className := jsOr (headClassNameD midlets) "Start".data
        rawManifest := rawManifest }

/-- The class-name derivation rule both `parseJAR` and `parseJAD`
actually follow (the wording of the amended claim C1): the first
declared MIDlet entry's class name when that is nonempty; the fixed
fallback `Start` when the entry list is empty or the first entry's
class name is empty. -/
def classNameRule (r : JARManifest) : Prop :=
  match r.midlets with
  | [] => r.className = "Start".data
  | e :: _ =>
    r.className = (if e.className = [] then "Start".data else e.className)

/-! ## CheerpJ lifecycle adapter (`useCheerpJ`)

The hook's React state (`status`, `error`, `isReady`, `displayElement`)
and the `jarUrlRef` ref form `AdapterState`.  Browser-global effects —
the injected script / global `window.cheerpjInit` entry point, and the
set of live object URLs created by `URL.createObjectURL` — form
`World`; `URL.createObjectURL` hands out consecutive numeric handles.
The outcomes of the awaited external calls (script load, engine init,
run-main) and the presence of the container mount point are an `Env`
the operations consume, and every external call performed is recorded
in an `Action` trace, in program order. -/

/-- `EmulatorStatus` (the hook's status union type). -/
inductive EmulatorStatus where
  | idle | loading | initializing | running | paused | error
deriving Repr, DecidableEq

/-- React state plus `jarUrlRef` of the hook.  `errorMsg` embeds the
hook's `error` state field; `displayElement` only records whether a
display surface exists. -/
structure AdapterState where
  status : EmulatorStatus
  errorMsg : Option (List Char)
  isReady : Bool
  displayElement : Option Unit
  jarUrl : Option Nat
deriving Repr, DecidableEq

/-- Browser-global state: whether `window.cheerpjInit` is a function,
the next fresh object-URL handle, and the currently live (created and
not yet revoked) object URLs. -/
structure World where
  hasCheerpjInit : Bool
  nextUrl : Nat
  liveUrls : List Nat
deriving Repr, DecidableEq

/-- Outcomes of the awaited external calls, and whether
`containerRef.current` is non-null.  `none` in an error slot means the
call succeeds; `some msg` means it rejects with message `msg`. -/
structure Env where
  scriptLoadOk : Bool
  initErr : Option (List Char)
  runErr : Option (List Char)
  hasContainer : Bool
deriving Repr, DecidableEq

/-- External calls the adapter can perform, recorded in program order. -/
inductive Action where
  | injectScript
  | engineInit
  | createUrl (u : Nat)
  | revokeUrl (u : Nat)
  | createDisplay (w h : Int)
  | runMain (className : List Char)
  | dispatchKey (keyCode : Int) (pressed : Bool)
deriving Repr, DecidableEq

/-- `loadScript` (hook lines 108–124): resolve immediately when
`window.cheerpjInit` is already a function, otherwise inject the script
tag; on `onload` the global entry point exists, on `onerror` the
promise rejects (with message `Failed to load CheerpJ`). -/
def loadScript (env : Env) (w : World) : World × Bool × List Action :=
  if w.hasCheerpjInit then (w, true, [])
  else if env.scriptLoadOk then
    ({ w with hasCheerpjInit := true }, true, [Action.injectScript])
  else (w, false, [Action.injectScript])

/-- `initialize` (hook lines 127–153).  Returns the updated world and
adapter state, the Bool the promise resolves with, and the trace of
external calls performed. -/
def initializeOp (env : Env) (w : World) (s : AdapterState) :
    World × AdapterState × Bool × List Action :=
  if s.isReady then (w, s, true, [])
  else
    let s1 := { s with status := EmulatorStatus.loading, errorMsg := none }
    match loadScript env w with
    | (w1, true, a1) =>
      let s2 := { s1 with status := EmulatorStatus.initializing }
      match env.initErr with
      | none =>
        (w1, { s2 with isReady := true, status := EmulatorStatus.idle },
          true, a1 ++ [Action.engineInit])
      | some msg =>
        (w1, { s2 with errorMsg := some msg, status := EmulatorStatus.error },
          false, a1 ++ [Action.engineInit])
    | (w1, false, a1) =>
      let sf := { s1 with errorMsg := some "Failed to load CheerpJ".data,
                          status := EmulatorStatus.error }
      (w1, sf, false, a1)

/-- The `try` block of `loadJAR` (hook lines 167–199): set status
`loading`; revoke the previous object URL if any; create a fresh one
and store it in the ref; create the display when a container is
mounted; set status `running`; run the main class.  A run failure is
caught: the message is stored, status becomes `error`, and the error is
re-thrown (`Except.error`). -/
def runBody (env : Env) (w : World) (s : AdapterState)
    (className : List Char) (sw sh : Int) :
    World × AdapterState × Except (List Char) Unit × List Action :=
  let s1 := { s with status := EmulatorStatus.loading }
  let revoked : World × List Action :=
    match s1.jarUrl with
    | some u => ({ w with liveUrls := w.liveUrls.erase u }, [Action.revokeUrl u])
    | none => (w, [])
  let w1 := revoked.1
  let n := w1.nextUrl
  let w2 := { w1 with nextUrl := n + 1, liveUrls := n :: w1.liveUrls }
  let s2 := { s1 with jarUrl := some n }
  let disp : AdapterState × List Action :=
    if env.hasContainer then
      ({ s2 with displayElement := some () }, [Action.createDisplay sw sh])
    else (s2, [])
  let s3 := { disp.1 with status := EmulatorStatus.running }
  let acts := revoked.2 ++ [Action.createUrl n] ++ disp.2 ++
    [Action.runMain className]
  match env.runErr with
  | none => (w2, s3, Except.ok (), acts)
  | some msg =>
    (w2, { s3 with errorMsg := some msg, status := EmulatorStatus.error },
      Except.error msg, acts)

/-- `loadJAR` (hook lines 156–200): when not yet ready, run
`initialize` first and throw `CheerpJ not initialized` (outside the
`try` block, so without further state changes) when it fails; then the
`try` block `runBody`. -/
def loadJAR (env : Env) (w : World) (s : AdapterState)
    (className : List Char) (sw sh : Int) :
    World × AdapterState × Except (List Char) Unit × List Action :=
  if s.isReady then runBody env w s className sw sh
  else
    match initializeOp env w s with
    | (w1, s1, true, a1) =>
      let r := runBody env w1 s1 className sw sh
      (r.1, r.2.1, r.2.2.1, a1 ++ r.2.2.2)
    | (w1, s1, false, a1) =>
      (w1, s1, Except.error "CheerpJ not initialized".data, a1)

/-- `stop` (hook lines 203–210): revoke the object URL if one is held,
clear the ref, reset status to `idle`, drop the display element. -/
def stop (w : World) (s : AdapterState) :
    World × AdapterState × List Action :=
  let rev : World × List Action :=
    match s.jarUrl with
    | some u => ({ w with liveUrls := w.liveUrls.erase u }, [Action.revokeUrl u])
    | none => (w, [])
  let s1 := { s with jarUrl := none, status := EmulatorStatus.idle,
                     displayElement := none }
  (rev.1, s1, rev.2)

/-- `sendKeyEvent` (hook lines 213–225): a no-op unless status is
`running` and a display element exists; otherwise synthesize a
keydown/keyup event and dispatch it to the display element. -/
def sendKeyEvent (s : AdapterState) (keyCode : Int) (pressed : Bool) :
    AdapterState × List Action :=
  if s.status ≠ EmulatorStatus.running ∨ s.displayElement = none then (s, [])
  else (s, [Action.dispatchKey keyCode pressed])

/-- The hook's initial React state (lines 99–105): status `idle`, no
error, not ready, no display element, `jarUrlRef` null. -/
def initialAdapterState : AdapterState :=
  { status := EmulatorStatus.idle, errorMsg := none, isReady := false,
    displayElement := none, jarUrl := none }

/-- A fresh browser world: no object URLs have been created; the
CheerpJ loader script may or may not already be present on the page. -/
def initialWorld (hasCJ : Bool) : World :=
  { hasCheerpjInit := hasCJ, nextUrl := 0, liveUrls := [] }

/-- States reachable from a fresh mount of the hook through any
sequence of its operations. -/
inductive Reachable : World → AdapterState → Prop
  | init (b : Bool) : Reachable (initialWorld b) initialAdapterState
  | stepInit (env : Env) {w s} (h : Reachable w s) :
      Reachable (initializeOp env w s).1 (initializeOp env w s).2.1
  | stepLoad (env : Env) (cn : List Char) (sw sh : Int) {w s}
      (h : Reachable w s) :
      Reachable (loadJAR env w s cn sw sh).1 (loadJAR env w s cn sw sh).2.1
  | stepStop {w s} (h : Reachable w s) :
      Reachable (stop w s).1 (stop w s).2.1
  | stepKey (k : Int) (p : Bool) {w s} (h : Reachable w s) :
      Reachable w (sendKeyEvent s k p).1

/-- The resource invariant behind claim C7: the live object URLs are
at most the one held in `jarUrlRef`. -/
def handleInv (w : World) (s : AdapterState) : Prop :=
  match s.jarUrl with
  | none => w.liveUrls = []
  | some u => w.liveUrls = [] ∨ w.liveUrls = [u]

/-! ## Basic facts about the JS helpers -/

theorem jsOr_of_ne {a b : List Char} (h : a ≠ []) : jsOr a b = a := by
  rw [jsOr, if_neg h]

/-! ## Decimal rendering: basic facts -/

theorem decDigitChar_toNat {d : Nat} (hd : d < 10) :
    (decDigitChar d).toNat - 48 = d := by
  interval_cases d <;> rfl

theorem decDigitsVal_append (l : List Char) (c : Char) :
    decDigitsVal (l ++ [c]) = 10 * decDigitsVal l + (c.toNat - 48) := by
  simp [decDigitsVal]

theorem decDigitsVal_natToStrAux :
    ∀ f n, n < f → decDigitsVal (natToStrAux f n) = n := by
  intro f
  induction f with
  | zero => intro n h; exact absurd h (Nat.not_lt_zero n)
  | succ f ih =>
    intro n hn
    match n with
    | 0 => simp [natToStrAux, decDigitsVal]
    | n + 1 =>
      rw [natToStrAux, decDigitsVal_append]
      have h1 : (n + 1) / 10 < f :=
        lt_of_lt_of_le (Nat.div_lt_self (Nat.succ_pos n) (by norm_num))
          (Nat.lt_succ_iff.mp hn)
      rw [ih _ h1, decDigitChar_toNat (Nat.mod_lt _ (by norm_num))]
      exact Nat.div_add_mod (n + 1) 10

theorem natToStrL_injective : Function.Injective natToStrL := by
  intro a b h
  unfold natToStrL at h
  by_cases ha : a = 0 <;> by_cases hb : b = 0
  · omega
  · rw [if_pos ha, if_neg hb] at h
    have hb' := decDigitsVal_natToStrAux (b + 1) b (Nat.lt_succ_self b)
    rw [← h] at hb'
    have : decDigitsVal ['0'] = 0 := by decide
    omega
  · rw [if_neg ha, if_pos hb] at h
    have ha' := decDigitsVal_natToStrAux (a + 1) a (Nat.lt_succ_self a)
    rw [h] at ha'
    have : decDigitsVal ['0'] = 0 := by decide
    omega
  · rw [if_neg ha, if_neg hb] at h
    have ha' := decDigitsVal_natToStrAux (a + 1) a (Nat.lt_succ_self a)
    have hb' := decDigitsVal_natToStrAux (b + 1) b (Nat.lt_succ_self b)
    rw [h] at ha'
    omega

theorem midletKey_injective : Function.Injective midletKey := by
  intro a b h
  exact natToStrL_injective (List.append_cancel_left h)

/-! ## The MIDlet-entry while loop -/

theorem parseGo_spec (m : List (List Char × List Char)) (n : Nat)
    (hne : ∀ j, 1 ≤ j → j ≤ n → lookupD m (midletKey j) ≠ [])
    (hend : lookupD m (midletKey (n + 1)) = []) :
    ∀ fuel i, 1 ≤ i → i ≤ n + 1 → n + 1 - i < fuel →
      parseMIDletEntriesGo m i fuel =
        (List.range' i (n + 1 - i)).map
          (fun j => mkMIDletEntry j (lookupD m (midletKey j))) := by
  intro fuel
  induction fuel with
  | zero => intro i _ _ h; omega
  | succ f ih =>
    intro i hi1 hi2 hfuel
    by_cases hin : i = n + 1
    · subst hin
      simp [parseMIDletEntriesGo, hend]
    · have hile : i ≤ n := by omega
      have hnei := hne i hi1 hile
      have hr : n + 1 - i = (n - i) + 1 := by omega
      rw [parseMIDletEntriesGo, if_neg hnei, hr, List.range'_succ, List.map_cons]
      have hr2 : n - i = n + 1 - (i + 1) := by omega
      rw [hr2, ih (i + 1) (by omega) (by omega) (by omega)]

theorem keys_present_length (m : List (List Char × List Char)) (n : Nat)
    (hne : ∀ j, 1 ≤ j → j ≤ n → lookupD m (midletKey j) ≠ []) :
    n ≤ m.length := by
  have hsub : ((List.range' 1 n).map midletKey) ⊆ m.map Prod.fst := by
    intro k hk
    rw [List.mem_map] at hk
    obtain ⟨j, hj, rfl⟩ := hk
    rw [List.mem_range'_1] at hj
    have hj' := hne j hj.1 (by omega)
    unfold lookupD at hj'
    cases hfind : m.find? (fun kv => kv.1 == midletKey j) with
    | none => rw [hfind] at hj'; simp at hj'
    | some kv =>
      have hmem := List.mem_of_find?_eq_some hfind
      have hp := List.find?_some hfind
      simp only [beq_iff_eq] at hp
      exact List.mem_map.mpr ⟨kv, hmem, hp⟩
  have hnd : ((List.range' 1 n).map midletKey).Nodup :=
    (List.nodup_range' 1 n).map midletKey_injective
  have hle := (List.subperm_of_subset hnd hsub).length_le
  simpa using hle

/-- C2. For a mapping with nonempty `MIDlet-1 … MIDlet-n` values and a
missing (or empty) `MIDlet-(n+1)`, `parseMIDletEntries` returns exactly
the `n` entries parsed from `MIDlet-1 … MIDlet-n`, in index order;
bindings at indices beyond the gap play no role. -/
theorem claim_C2 (m : List (List Char × List Char)) (n : Nat)
    (hne : ∀ j, 1 ≤ j → j ≤ n → lookupD m (midletKey j) ≠ [])
    (hend : lookupD m (midletKey (n + 1)) = []) :
    parseMIDletEntries m =
      (List.range' 1 n).map
        (fun j => mkMIDletEntry j (lookupD m (midletKey j))) ∧
    (parseMIDletEntries m).length = n := by
  have hlen : n ≤ m.length := keys_present_length m n hne
  have h := parseGo_spec m n hne hend (m.length + 1) 1 le_rfl (by omega) (by omega)
  unfold parseMIDletEntries
  rw [h]
  simp

/-- Witness for C2 at a concrete two-entry mapping with a gap at 3. -/
theorem claim_C2_witness :
    parseMIDletEntries
        [(midletKey 1, "A, i.png, a.B".data), (midletKey 2, "C".data)] =
      (List.range' 1 2).map
        (fun j => mkMIDletEntry j
          (lookupD [(midletKey 1, "A, i.png, a.B".data),
                    (midletKey 2, "C".data)] (midletKey j))) ∧
    (parseMIDletEntries
        [(midletKey 1, "A, i.png, a.B".data), (midletKey 2, "C".data)]).length = 2 :=
  claim_C2 [(midletKey 1, "A, i.png, a.B".data), (midletKey 2, "C".data)] 2
    (by intro j h1 h2; interval_cases j <;> decide) (by decide)

theorem find?_eraseP_of_disjoint {α : Type} (p q : α → Bool) (l : List α)
    (h : ∀ x ∈ l, q x = true → p x = false) :
    (l.eraseP q).find? p = l.find? p := by
  induction l with
  | nil => rfl
  | cons a l ih =>
    by_cases hq : q a = true
    · rw [List.eraseP_cons_of_pos hq]
      have hp : ¬ p a = true := by
        have := h a (by simp) hq
        simp [this]
      rw [List.find?_cons_of_neg _ hp]
    · rw [List.eraseP_cons_of_neg hq]
      by_cases hp : p a = true
      · rw [List.find?_cons_of_pos _ hp, List.find?_cons_of_pos _ hp]
      · rw [List.find?_cons_of_neg _ hp, List.find?_cons_of_neg _ hp]
        exact ih (fun x hx => h x (by simp [hx]))

theorem find?_eraseP_key_none (m : List (List Char × List Char))
    (K : List Char) (hnd : (m.map Prod.fst).Nodup) :
    (m.eraseP (fun kv => kv.1 == K)).find? (fun kv => kv.1 == K) = none := by
  induction m with
  | nil => rfl
  | cons a l ih =>
    rw [List.map_cons, List.nodup_cons] at hnd
    by_cases hq : (a.1 == K) = true
    · have he : List.eraseP (fun kv => kv.1 == K) (a :: l) = l :=
        List.eraseP_cons_of_pos hq
      rw [he, List.find?_eq_none]
      intro x hx hpx
      simp only [beq_iff_eq] at hq hpx
      exact hnd.1 (List.mem_map.mpr ⟨x, hx, by rw [hpx, hq]⟩)
    · have he : List.eraseP (fun kv => kv.1 == K) (a :: l) =
          a :: List.eraseP (fun kv => kv.1 == K) l :=
        List.eraseP_cons_of_neg hq
      have hf : List.find? (fun kv => kv.1 == K)
          (a :: List.eraseP (fun kv => kv.1 == K) l) =
          List.find? (fun kv => kv.1 == K)
            (List.eraseP (fun kv => kv.1 == K) l) :=
        List.find?_cons_of_neg _ hq
      rw [he, hf]
      exact ih hnd.2

theorem lookupD_eraseP_ne (m : List (List Char × List Char))
    (K k : List Char) (hne : k ≠ K) :
    lookupD (m.eraseP (fun kv => kv.1 == K)) k = lookupD m k := by
  unfold lookupD
  rw [find?_eraseP_of_disjoint]
  intro x _ hq
  simp only [beq_iff_eq] at hq
  simp only [beq_eq_false_iff_ne, ne_eq]
  rw [hq]
  exact fun h => hne h.symm

theorem lookupD_eraseP_self (m : List (List Char × List Char))
    (K : List Char) (hnd : (m.map Prod.fst).Nodup) :
    lookupD (m.eraseP (fun kv => kv.1 == K)) K = [] := by
  unfold lookupD
  rw [find?_eraseP_key_none m K hnd]

/-- C10. A `MIDlet-k` key bound to the empty string stops the entry
loop exactly like a missing key: only the `k-1` earlier entries are
returned, and the result is the same as for the mapping with that
binding removed.  (The key-uniqueness hypothesis holds for every
mapping `parseManifest` produces, since a JS object cannot hold
duplicate keys.) -/
theorem claim_C10 (m : List (List Char × List Char)) (k : Nat)
    (hk : 1 ≤ k) (hnd : (m.map Prod.fst).Nodup)
    (hne : ∀ j, 1 ≤ j → j < k → lookupD m (midletKey j) ≠ [])
    (hfind : m.find? (fun kv => kv.1 == midletKey k) =
      some (midletKey k, ([] : List Char))) :
    (parseMIDletEntries m).length = k - 1 ∧
    parseMIDletEntries m =
      parseMIDletEntries (m.eraseP (fun kv => kv.1 == midletKey k)) := by
  have hend : lookupD m (midletKey k) = [] := by simp [lookupD, hfind]
  have hne1 : ∀ j, 1 ≤ j → j ≤ k - 1 → lookupD m (midletKey j) ≠ [] :=
    fun j h1 h2 => hne j h1 (by omega)
  have hkne : ∀ j, 1 ≤ j → j ≤ k - 1 → midletKey j ≠ midletKey k := by
    intro j h1 h2 h
    have := midletKey_injective h
    omega
  have heq_look : ∀ j, 1 ≤ j → j ≤ k - 1 →
      lookupD (m.eraseP (fun kv => kv.1 == midletKey k)) (midletKey j) =
        lookupD m (midletKey j) :=
    fun j h1 h2 => lookupD_eraseP_ne m _ _ (hkne j h1 h2)
  have hne2 : ∀ j, 1 ≤ j → j ≤ k - 1 →
      lookupD (m.eraseP (fun kv => kv.1 == midletKey k)) (midletKey j) ≠ [] := by
    intro j h1 h2
    rw [heq_look j h1 h2]
    exact hne1 j h1 h2
  have hend' : lookupD (m.eraseP (fun kv => kv.1 == midletKey k))
      (midletKey k) = [] := lookupD_eraseP_self m _ hnd
  have hk1 : k - 1 + 1 = k := by omega
  have hlen : k - 1 ≤ m.length := keys_present_length m (k - 1) hne1
  have hlen' : k - 1 ≤ (m.eraseP (fun kv => kv.1 == midletKey k)).length :=
    keys_present_length _ (k - 1) hne2
  have h1 := parseGo_spec m (k - 1) hne1 (by rw [hk1]; exact hend)
    (m.length + 1) 1 le_rfl (by omega) (by omega)
  have h2 := parseGo_spec (m.eraseP (fun kv => kv.1 == midletKey k)) (k - 1)
    hne2 (by rw [hk1]; exact hend')
    ((m.eraseP (fun kv => kv.1 == midletKey k)).length + 1) 1 le_rfl
    (by omega) (by omega)
  constructor
  · unfold parseMIDletEntries
    rw [h1]
    simp
  · unfold parseMIDletEntries
    rw [h1, h2]
    apply List.map_congr_left
    intro j hj
    rw [List.mem_range'_1] at hj
    rw [heq_look j hj.1 (by omega)]

/-- Witness for C10: a mapping binding `MIDlet-2` to the empty string. -/
theorem claim_C10_witness :
    (parseMIDletEntries
        [(midletKey 1, "A".data), (midletKey 2, ([] : List Char))]).length = 1 ∧
    parseMIDletEntries
        [(midletKey 1, "A".data), (midletKey 2, ([] : List Char))] =
      parseMIDletEntries
        ([(midletKey 1, "A".data), (midletKey 2, ([] : List Char))].eraseP
          (fun kv => kv.1 == midletKey 2)) :=
  claim_C10 [(midletKey 1, "A".data), (midletKey 2, ([] : List Char))] 2
    (by decide) (by decide)
    (by intro j h1 h2; have hj : j = 1 := (by omega); subst hj; decide)
    (by decide)

/-- C3. Screen geometry: explicit `MIDlet-Screen-Width/Height` fields
win; the vendor `Nokia-MIDlet-Canvas-Size` `WxH` field is split on `x`
when the explicit fields are absent; with neither, the defaults are
240×320. -/
theorem claim_C3 (m : List (List Char × List Char)) :
    (lookupD m "MIDlet-Screen-Width".data = "176".data →
      lookupD m "MIDlet-Screen-Height".data = "220".data →
      parseScreenSize m = ⟨some 176, some 220⟩) ∧
    (lookupD m "MIDlet-Screen-Width".data = [] →
      lookupD m "MIDlet-Screen-Height".data = [] →
      lookupD m "Nokia-MIDlet-Canvas-Size".data = "128x128".data →
      parseScreenSize m = ⟨some 128, some 128⟩) ∧
    (lookupD m "MIDlet-Screen-Width".data = [] →
      lookupD m "MIDlet-Screen-Height".data = [] →
      lookupD m "Nokia-MIDlet-Canvas-Size".data = [] →
      parseScreenSize m = ⟨some 240, some 320⟩) := by
  refine ⟨?_, ?_, ?_⟩ <;> intro h1 h2
  · rw [parseScreenSize, h1, h2, jsOr_of_ne (by decide), jsOr_of_ne (by decide)]
    decide
  · intro h3; rw [parseScreenSize, h1, h2, h3]; decide
  · intro h3; rw [parseScreenSize, h1, h2, h3]; decide

/-- Witness for C3 at three concrete mappings. -/
theorem claim_C3_witness :
    parseScreenSize [("MIDlet-Screen-Width".data, "176".data),
                     ("MIDlet-Screen-Height".data, "220".data)] =
      ⟨some 176, some 220⟩ ∧
    parseScreenSize [("Nokia-MIDlet-Canvas-Size".data, "128x128".data)] =
      ⟨some 128, some 128⟩ ∧
    parseScreenSize [] = ⟨some 240, some 320⟩ :=
  ⟨(claim_C3 _).1 (by decide) (by decide),
   (claim_C3 _).2.1 (by decide) (by decide) (by decide),
   (claim_C3 _).2.2 (by decide) (by decide) (by decide)⟩

/-- C5. An archive with no entry at the fixed path
`META-INF/MANIFEST.MF` makes `parseJAR` fail with the malformed-archive
error; no manifest value is produced. -/
theorem claim_C5 (archive : List (List Char × List Char))
    (fileName : List Char)
    (h : archive.find? (fun e => e.1 == "META-INF/MANIFEST.MF".data) = none) :
    parseJAR archive fileName =
      Except.error "Invalid JAR: MANIFEST.MF not found".data := by
  rw [parseJAR, h]

/-- Witness for C5 at the empty archive. -/
theorem claim_C5_witness :
    parseJAR [] "a.jar".data =
      Except.error "Invalid JAR: MANIFEST.MF not found".data :=
  claim_C5 [] "a.jar".data rfl

/-! ## Trimming: idempotence -/

theorem dropWhile_idem {α : Type} (p : α → Bool) (l : List α) :
    (l.dropWhile p).dropWhile p = l.dropWhile p := by
  induction l with
  | nil => rfl
  | cons a l ih =>
    by_cases h : p a = true
    · rw [List.dropWhile_cons_of_pos h]
      exact ih
    · rw [List.dropWhile_cons_of_neg h, List.dropWhile_cons_of_neg h]

theorem dropWhile_eq_self_of_head {α : Type} (p : α → Bool) (l : List α)
    (h : ∀ a, l.head? = some a → p a = false) : l.dropWhile p = l := by
  cases l with
  | nil => rfl
  | cons a l =>
    have := h a rfl
    rw [List.dropWhile_cons_of_neg (by simp [this])]

theorem head?_jsTrimL_not_ws (l : List Char) :
    ∀ a, (jsTrimL l).head? = some a → isWsChar a = false := by
  intro a ha
  rw [jsTrimL, List.head?_reverse] at ha
  have hsplit := List.takeWhile_append_dropWhile isWsChar
    ((l.dropWhile isWsChar).reverse)
  have hne : (l.dropWhile isWsChar).reverse.dropWhile isWsChar ≠ [] := by
    intro h0
    rw [h0] at ha
    exact Option.noConfusion ha
  have hlast : ((l.dropWhile isWsChar).reverse).getLast? = some a := by
    rw [← hsplit, List.getLast?_append_of_ne_nil _ hne]
    exact ha
  rw [List.getLast?_reverse] at hlast
  have hh := List.head?_dropWhile_not isWsChar l
  rw [hlast] at hh
  exact hh

theorem reverse_head?_jsTrimL_not_ws (l : List Char) :
    ∀ a, (jsTrimL l).reverse.head? = some a → isWsChar a = false := by
  intro a ha
  rw [jsTrimL, List.reverse_reverse] at ha
  have hh := List.head?_dropWhile_not isWsChar ((l.dropWhile isWsChar).reverse)
  rw [ha] at hh
  exact hh

theorem jsTrimL_idem (l : List Char) : jsTrimL (jsTrimL l) = jsTrimL l := by
  conv_lhs => rw [jsTrimL]
  rw [dropWhile_eq_self_of_head isWsChar (jsTrimL l) (head?_jsTrimL_not_ws l),
    dropWhile_eq_self_of_head isWsChar (jsTrimL l).reverse
      (reverse_head?_jsTrimL_not_ws l),
    List.reverse_reverse]

/-! ## The manifest fold keeps only trimmed values -/

/-- All values stored in a mapping are fixed points of `jsTrimL`. -/
def valsTrimmed (m : List (List Char × List Char)) : Prop :=
  ∀ kv ∈ m, jsTrimL kv.2 = kv.2

theorem valsTrimmed_setKV {m : List (List Char × List Char)}
    {k v : List Char} (hm : valsTrimmed m) (hv : jsTrimL v = v) :
    valsTrimmed (setKV m k v) := by
  induction m with
  | nil =>
    intro kv hkv
    rw [setKV] at hkv
    rcases List.mem_singleton.mp hkv with rfl
    exact hv
  | cons a l ih =>
    intro kv hkv
    rw [setKV] at hkv
    by_cases ha : a.1 = k
    · rw [if_pos ha] at hkv
      rcases List.mem_cons.mp hkv with rfl | hl
      · exact hv
      · exact hm kv (List.mem_cons_of_mem a hl)
    · rw [if_neg ha] at hkv
      rcases List.mem_cons.mp hkv with rfl | hl
      · exact hm _ (List.mem_cons_self _ _)
      · exact ih (fun x hx => hm x (List.mem_cons_of_mem _ hx)) kv hl

theorem valsTrimmed_step (st : MState) (line : List Char)
    (h : valsTrimmed st.manifest) :
    valsTrimmed (manifestStepL st line).manifest := by
  rw [manifestStepL]
  by_cases h1 : line.head? = some ' '
  · rw [if_pos h1]
    exact h
  · rw [if_neg h1]
    by_cases h2 : line.contains ':' = true
    · rw [if_pos h2]
      by_cases h3 : st.curKey = []
      · simpa [h3] using h
      · simp only [if_neg h3]
        exact valsTrimmed_setKV h (jsTrimL_idem st.curValue)
    · rw [if_neg h2]
      exact h

theorem valsTrimmed_foldl (lines : List (List Char)) :
    ∀ st : MState, valsTrimmed st.manifest →
      valsTrimmed ((lines.foldl manifestStepL st).manifest) := by
  induction lines with
  | nil => intro st h; exact h
  | cons line rest ih =>
    intro st h
    exact ih (manifestStepL st line) (valsTrimmed_step st line h)

theorem valsTrimmed_finish (st : MState) (h : valsTrimmed st.manifest) :
    valsTrimmed (finishManifest st) := by
  rw [finishManifest]
  by_cases h3 : st.curKey = []
  · rw [if_pos h3]
    exact h
  · rw [if_neg h3]
    exact valsTrimmed_setKV h (jsTrimL_idem st.curValue)

/-! ## Line splitting: CRLF and LF -/

theorem splitLinesL_cons_of_ne (c : Char) (hc1 : c ≠ '\r') (hc2 : c ≠ '\n')
    (t : List Char) :
    splitLinesL (c :: t) = (splitLinesL t).modifyHead (fun l => c :: l) := by
  cases t with
  | nil => simp [splitLinesL, hc1, hc2]
  | cons d t' =>
    by_cases hd : d = '\n'
    · subst hd
      simp [splitLinesL, hc1, hc2]
    · simp [splitLinesL, hc1, hc2, hd]

theorem splitLinesL_append_clean (l : List Char)
    (hcl : ∀ c ∈ l, c ≠ '\n' ∧ c ≠ '\r') (m : List Char) :
    splitLinesL (l ++ m) = (splitLinesL m).modifyHead (fun h => l ++ h) := by
  induction l with
  | nil =>
    have : (fun h : List Char => [] ++ h) = id := funext fun h => by simp
    rw [List.nil_append, this, List.modifyHead_id, id]
  | cons c l ih =>
    have hc := hcl c (List.mem_cons_self c l)
    rw [List.cons_append, splitLinesL_cons_of_ne c hc.2 hc.1,
      ih (fun x hx => hcl x (List.mem_cons_of_mem c hx)),
      List.modifyHead_modifyHead]
    rfl

theorem splitLinesL_joinWith (sep : List Char)
    (hsep : ∀ rest, splitLinesL (sep ++ rest) = [] :: splitLinesL rest) :
    ∀ lines : List (List Char), lines ≠ [] →
      (∀ l ∈ lines, ∀ c ∈ l, c ≠ '\n' ∧ c ≠ '\r') →
      splitLinesL (joinWithL sep lines) = lines := by
  intro lines
  induction lines with
  | nil => intro h; exact absurd rfl h
  | cons a rest ih =>
    intro _ hcl
    have ha := hcl a (List.mem_cons_self a rest)
    cases rest with
    | nil =>
      show splitLinesL a = [a]
      have := splitLinesL_append_clean a ha []
      simpa [splitLinesL] using this
    | cons b rest' =>
      show splitLinesL (a ++ sep ++ joinWithL sep (b :: rest')) = a :: b :: rest'
      rw [List.append_assoc, splitLinesL_append_clean a ha, hsep,
        ih (by simp) (fun l hl => hcl l (List.mem_cons_of_mem a hl))]
      simp

/-- C4.  (a) A continuation line (leading space) appends its remainder
verbatim to the current value; (b) every value stored by
`parseManifest` is a fixed point of trimming; (c) a manifest text
joined with CRLF terminators parses identically to the same lines
joined with LF terminators. -/
theorem claim_C4 :
    (∀ (st : MState) (rest : List Char),
      manifestStepL st (' ' :: rest) =
        { st with curValue := st.curValue ++ rest }) ∧
    (∀ (content : List Char) kv, kv ∈ parseManifestL content →
      jsTrimL kv.2 = kv.2) ∧
    (∀ lines : List (List Char), lines ≠ [] →
      (∀ l ∈ lines, ∀ c ∈ l, c ≠ '\n' ∧ c ≠ '\r') →
      parseManifestL (joinWithL ['\r', '\n'] lines) =
        parseManifestL (joinWithL ['\n'] lines)) := by
  refine ⟨?_, ?_, ?_⟩
  · intro st rest
    simp [manifestStepL]
  · intro content kv hkv
    have h0 : valsTrimmed (⟨[], [], []⟩ : MState).manifest := by
      intro x hx
      exact absurd hx (List.not_mem_nil x)
    exact valsTrimmed_finish _ (valsTrimmed_foldl (splitLinesL content) _ h0)
      kv hkv
  · intro lines hne hcl
    rw [parseManifestL, parseManifestL,
      splitLinesL_joinWith ['\r', '\n'] (fun rest => rfl) lines hne hcl,
      splitLinesL_joinWith ['\n'] (fun rest => rfl) lines hne hcl]

/-- Witness for C4 at concrete inputs. -/
theorem claim_C4_witness :
    manifestStepL ⟨[], ['K'], ['v']⟩ (' ' :: ['w']) =
      { manifest := [], curKey := ['K'], curValue := ['v', 'w'] } ∧
    jsTrimL (['A'], ['b']).2 = (['A'], ['b']).2 ∧
    parseManifestL (joinWithL ['\r', '\n'] ["A: b".data, "C: d".data]) =
      parseManifestL (joinWithL ['\n'] ["A: b".data, "C: d".data]) :=
  ⟨claim_C4.1 ⟨[], ['K'], ['v']⟩ ['w'],
   claim_C4.2.1 "A: b".data (['A'], ['b']) (by decide),
   claim_C4.2.2 ["A: b".data, "C: d".data] (by decide) (by decide)⟩

/-! ## Claim C1: the derived class name -/

theorem classNameRule_mk (r : JARManifest)
    (h : r.className = jsOr (headClassNameD r.midlets) "Start".data) :
    classNameRule r := by
  cases hr : r.midlets with
  | nil =>
    rw [hr, headClassNameD] at h
    unfold classNameRule
    rw [hr]
    simpa [jsOr] using h
  | cons e rest =>
    rw [hr, headClassNameD] at h
    unfold classNameRule
    rw [hr, h, jsOr]

/-- C1 (amended).  The derived `className` of a parsed manifest is the
first declared MIDlet entry's class name when that class name is
nonempty, and the fixed fallback `Start` otherwise — both when no
MIDlet entries were declared and when the first entry's class-name
component is empty.  Parsing never fails merely because the MIDlet
entry list is empty: `parseJAD` is total, and `parseJAR` fails exactly
when the archive lacks the manifest entry. -/
theorem claim_C1 (content : List Char)
    (archive : List (List Char × List Char)) (fileName : List Char)
    (r : JARManifest) :
    classNameRule (parseJAD content) ∧
    (parseJAR archive fileName = Except.ok r → classNameRule r) ∧
    ((parseJAR archive fileName).isOk ↔
      (archive.find? (fun e => e.1 == "META-INF/MANIFEST.MF".data)).isSome) := by
  refine ⟨?_, ?_, ?_⟩
  · exact classNameRule_mk _ rfl
  · intro h
    rw [parseJAR] at h
    cases hfind : archive.find? (fun e => e.1 == "META-INF/MANIFEST.MF".data) with
    | none =>
      rw [hfind] at h
      exact absurd h (by simp)
    | some mf =>
      rw [hfind] at h
      rw [Except.ok.injEq] at h
      subst h
      exact classNameRule_mk _ rfl
  · rw [parseJAR]
    cases hfind : archive.find? (fun e => e.1 == "META-INF/MANIFEST.MF".data) with
    | none => simp [Except.isOk, Except.toBool]
    | some mf => simp [Except.isOk, Except.toBool]

/-- The claim C1 as literally stated is false: an entry list whose
first entry has an empty class-name component (here
`MIDlet-1: Foo, /i.png`, which has no third component) is nonempty,
yet the derived `className` is the fallback `Start`, not the first
entry's (empty) class name. -/
theorem claim_C1_counterexample :
    (parseJAD "MIDlet-1: Foo, /i.png".data).midlets ≠ [] ∧
    (parseJAD "MIDlet-1: Foo, /i.png".data).className ≠
      ((parseJAD "MIDlet-1: Foo, /i.png".data).midlets.headI).className := by
  decide

/-- Witness for C1 at concrete inputs. -/
theorem claim_C1_witness :
    classNameRule (parseJAD []) ∧
    classNameRule
      { midletName := "a".data, midletVersion := "1.0".data,
        midletVendor := "Unknown".data, midlets := [],
        screenWidth := some 240, screenHeight := some 320,
        className := "Start".data, rawManifest := [] } ∧
    (parseJAR [("META-INF/MANIFEST.MF".data, [])] "a.jar".data).isOk := by
  obtain ⟨h1, h2, h3⟩ := claim_C1 [] [("META-INF/MANIFEST.MF".data, [])]
    "a.jar".data
    { midletName := "a".data, midletVersion := "1.0".data,
      midletVendor := "Unknown".data, midlets := [],
      screenWidth := some 240, screenHeight := some 320,
      className := "Start".data, rawManifest := [] }
  exact ⟨h1, h2 (by rfl), h3.mpr (by rfl)⟩

/-! ## Adapter claims -/

/-- C9.  `sendKeyEvent` is a no-op — no event is synthesized or
delivered, and the adapter state is unchanged — whenever status is not
`running` or no display surface exists. -/
theorem claim_C9 (s : AdapterState) (k : Int) (p : Bool)
    (h : s.status ≠ EmulatorStatus.running ∨ s.displayElement = none) :
    sendKeyEvent s k p = (s, []) := by
  rw [sendKeyEvent, if_pos h]

/-- Witness for C9 at the initial (idle) state. -/
theorem claim_C9_witness :
    sendKeyEvent initialAdapterState 42 true = (initialAdapterState, []) :=
  claim_C9 initialAdapterState 42 true (Or.inl (by decide))

/-- C6.  `initialize` is idempotent: once ready, every call returns
success immediately with no external calls and no state change; a
successful call from a non-ready state performs the engine init
exactly once and the script injection exactly once — or not at all
when the global entry point already exists — and leaves a state from
which a second call is an immediate no-op success. -/
theorem claim_C6 (env env2 : Env) (w : World) (s : AdapterState) :
    (s.isReady = true → initializeOp env w s = (w, s, true, [])) ∧
    (∀ w' s' acts, s.isReady = false →
      initializeOp env w s = (w', s', true, acts) →
      initializeOp env2 w' s' = (w', s', true, []) ∧
      acts.count Action.engineInit = 1 ∧
      acts.count Action.injectScript =
        (if w.hasCheerpjInit then 0 else 1)) := by
  constructor
  · intro h
    simp [initializeOp, h]
  · intro w' s' acts hnr h
    by_cases hcj : w.hasCheerpjInit
    · have hls : loadScript env w = (w, true, []) := by
        simp [loadScript, hcj]
      cases hie : env.initErr with
      | none =>
        have hcalc : initializeOp env w s =
            (w, { s with status := EmulatorStatus.idle, errorMsg := none, isReady := true }, true, [Action.engineInit]) := by
          simp [initializeOp, hnr, hls, hie]
        rw [hcalc] at h
        simp only [Prod.mk.injEq] at h
        obtain ⟨rfl, rfl, -, rfl⟩ := h
        refine ⟨?_, by decide, by simp [hcj]⟩
        simp [initializeOp]
      | some msg =>
        have hcalc : (initializeOp env w s).2.2.1 = false := by
          simp [initializeOp, hnr, hls, hie]
        rw [h] at hcalc
        simp at hcalc
    · by_cases hsl : env.scriptLoadOk
      · have hls : loadScript env w =
            ({ w with hasCheerpjInit := true }, true, [Action.injectScript]) := by
          simp [loadScript, hcj, hsl]
        cases hie : env.initErr with
        | none =>
          have hcalc : initializeOp env w s =
              ({ w with hasCheerpjInit := true }, { s with status := EmulatorStatus.idle, errorMsg := none, isReady := true }, true, [Action.injectScript, Action.engineInit]) := by
            simp [initializeOp, hnr, hls, hie]
          rw [hcalc] at h
          simp only [Prod.mk.injEq] at h
          obtain ⟨rfl, rfl, -, rfl⟩ := h
          refine ⟨?_, by decide, by simp [hcj]⟩
          simp [initializeOp]
        | some msg =>
          have hcalc : (initializeOp env w s).2.2.1 = false := by
            simp [initializeOp, hnr, hls, hie]
          rw [h] at hcalc
          simp at hcalc
      · have hls : loadScript env w = (w, false, [Action.injectScript]) := by
          simp [loadScript, hcj, hsl]
        have hcalc : (initializeOp env w s).2.2.1 = false := by
          simp [initializeOp, hnr, hls]
        rw [h] at hcalc
        simp at hcalc

/-- Witness for C6: a successful first initialization on a fresh page. -/
theorem claim_C6_witness :
    initializeOp ⟨true, none, none, true⟩ ⟨true, 0, []⟩
        ⟨EmulatorStatus.idle, none, true, none, none⟩ =
      (⟨true, 0, []⟩, ⟨EmulatorStatus.idle, none, true, none, none⟩, true, []) ∧
    [Action.injectScript, Action.engineInit].count Action.engineInit = 1 ∧
    [Action.injectScript, Action.engineInit].count Action.injectScript =
      (if (initialWorld false).hasCheerpjInit then 0 else 1) := by
  have h := (claim_C6 ⟨true, none, none, true⟩ ⟨true, none, none, true⟩
    (initialWorld false) initialAdapterState).2
    ⟨true, 0, []⟩ ⟨EmulatorStatus.idle, none, true, none, none⟩
    [Action.injectScript, Action.engineInit] rfl (by decide)
  exact h

theorem sendKeyEvent_fst (s : AdapterState) (k : Int) (p : Bool) :
    (sendKeyEvent s k p).1 = s := by
  rw [sendKeyEvent]
  by_cases h : s.status ≠ EmulatorStatus.running ∨ s.displayElement = none
  · rw [if_pos h]
  · rw [if_neg h]

theorem initializeOp_frame (env : Env) (w : World) (s : AdapterState) :
    (initializeOp env w s).1.nextUrl = w.nextUrl ∧
    (initializeOp env w s).1.liveUrls = w.liveUrls ∧
    (initializeOp env w s).2.1.jarUrl = s.jarUrl := by
  by_cases h : s.isReady
  · simp [initializeOp, h]
  · by_cases hcj : w.hasCheerpjInit <;> by_cases hsl : env.scriptLoadOk <;>
      cases hie : env.initErr <;>
      simp [initializeOp, loadScript, h, hcj, hsl, hie]

theorem handleInv_of_eq {w w' : World} {s s' : AdapterState}
    (h1 : w'.liveUrls = w.liveUrls) (h2 : s'.jarUrl = s.jarUrl)
    (h : handleInv w s) : handleInv w' s' := by
  unfold handleInv at h ⊢
  rw [h2, h1]
  exact h

theorem handleInv_runBody (env : Env) (w : World) (s : AdapterState)
    (cn : List Char) (sw sh : Int) (hinv : handleInv w s) :
    handleInv (runBody env w s cn sw sh).1 (runBody env w s cn sw sh).2.1 := by
  unfold handleInv at hinv
  cases hj : s.jarUrl with
  | none =>
    rw [hj] at hinv
    by_cases hc : env.hasContainer <;> cases hre : env.runErr <;>
      simp [runBody, handleInv, hj, hinv, hc, hre]
  | some u =>
    rw [hj] at hinv
    rcases hinv with h0 | h1
    · by_cases hc : env.hasContainer <;> cases hre : env.runErr <;>
        simp [runBody, handleInv, hj, h0, hc, hre]
    · by_cases hc : env.hasContainer <;> cases hre : env.runErr <;>
        simp [runBody, handleInv, hj, h1, hc, hre]

theorem handleInv_loadJAR (env : Env) (w : World) (s : AdapterState)
    (cn : List Char) (sw sh : Int) (hinv : handleInv w s) :
    handleInv (loadJAR env w s cn sw sh).1 (loadJAR env w s cn sw sh).2.1 := by
  by_cases h : s.isReady
  · rw [loadJAR, if_pos h]
    exact handleInv_runBody env w s cn sw sh hinv
  · rw [loadJAR, if_neg h]
    rcases hI : initializeOp env w s with ⟨w1, s1, b, a1⟩
    have hfr := initializeOp_frame env w s
    rw [hI] at hfr
    have hinv1 : handleInv w1 s1 := handleInv_of_eq hfr.2.1 hfr.2.2 hinv
    cases b
    · exact hinv1
    · exact handleInv_runBody env w1 s1 cn sw sh hinv1

theorem handleInv_stop (w : World) (s : AdapterState) (hinv : handleInv w s) :
    handleInv (stop w s).1 (stop w s).2.1 ∧ (stop w s).1.liveUrls = [] ∧
    (stop w s).2.1.status = EmulatorStatus.idle ∧
    (stop w s).2.1.jarUrl = none := by
  unfold handleInv at hinv
  cases hj : s.jarUrl with
  | none =>
    rw [hj] at hinv
    simp [stop, handleInv, hj, hinv]
  | some u =>
    rw [hj] at hinv
    rcases hinv with h0 | h1
    · simp [stop, handleInv, hj, h0]
    · simp [stop, handleInv, hj, h1]

theorem reachable_handleInv {w : World} {s : AdapterState}
    (h : Reachable w s) : handleInv w s := by
  induction h with
  | init b => simp [handleInv, initialWorld, initialAdapterState]
  | @stepInit env w1 s1 h ih =>
    have hfr := initializeOp_frame env w1 s1
    exact handleInv_of_eq hfr.2.1 hfr.2.2 ih
  | @stepLoad env cn sw sh w1 s1 h ih =>
    exact handleInv_loadJAR env w1 s1 cn sw sh ih
  | @stepStop w1 s1 h ih => exact (handleInv_stop w1 s1 ih).1
  | stepKey k p h ih =>
    rw [sendKeyEvent_fst]
    exact ih

theorem handleInv_length_le {w : World} {s : AdapterState}
    (h : handleInv w s) : w.liveUrls.length ≤ 1 := by
  unfold handleInv at h
  cases hj : s.jarUrl with
  | none => rw [hj] at h; simp [h]
  | some u =>
    rw [hj] at h
    rcases h with h | h <;> simp [h]

/-- C7.  In every state reachable through the adapter's operations at
most one object-URL handle is live; `loadJAR` and `stop` preserve
this; `stop` revokes the held handle, clears it and resets status to
`idle`; and when a previous handle exists, `loadJAR`'s external-call
trace revokes it strictly before creating the new one. -/
theorem claim_C7 (env : Env) (cn : List Char) (sw sh : Int)
    (w : World) (s : AdapterState) (h : Reachable w s) :
    w.liveUrls.length ≤ 1 ∧
    handleInv (loadJAR env w s cn sw sh).1 (loadJAR env w s cn sw sh).2.1 ∧
    (handleInv (stop w s).1 (stop w s).2.1 ∧ (stop w s).1.liveUrls = [] ∧
      (stop w s).2.1.status = EmulatorStatus.idle ∧
      (stop w s).2.1.jarUrl = none) ∧
    (∀ u, s.isReady = true → s.jarUrl = some u →
      ∃ rest, (loadJAR env w s cn sw sh).2.2.2 =
        Action.revokeUrl u :: Action.createUrl w.nextUrl :: rest) := by
  have hinv := reachable_handleInv h
  refine ⟨handleInv_length_le hinv, handleInv_loadJAR env w s cn sw sh hinv,
    handleInv_stop w s hinv, ?_⟩
  intro u hr hj
  rw [loadJAR, if_pos hr]
  by_cases hc : env.hasContainer <;> cases hre : env.runErr <;>
    simp [runBody, hj, hc, hre]

/-- Witness for C7 at the initial state of a fresh mount. -/
theorem claim_C7_witness :
    (initialWorld false).liveUrls.length ≤ 1 ∧
    (stop (initialWorld false) initialAdapterState).2.1.status =
      EmulatorStatus.idle :=
  ⟨(claim_C7 ⟨true, none, none, true⟩ "a.B".data 240 320
      (initialWorld false) initialAdapterState (Reachable.init false)).1,
   (claim_C7 ⟨true, none, none, true⟩ "a.B".data 240 320
      (initialWorld false) initialAdapterState (Reachable.init false)).2.2.1.2.2.1⟩

/-- C8.  `loadJAR` from a non-ready state performs initialization
first: when that fails the run is aborted by throwing
`CheerpJ not initialized` with no further effects, and when it
succeeds the external-call trace extends the initialization trace.
Any failure of the run stage stores the message, sets status `error`
and re-throws it. -/
theorem claim_C8 (env : Env) (w : World) (s : AdapterState)
    (cn : List Char) (sw sh : Int) :
    (∀ w1 s1 a1, s.isReady = false →
      initializeOp env w s = (w1, s1, false, a1) →
      loadJAR env w s cn sw sh =
        (w1, s1, Except.error "CheerpJ not initialized".data, a1)) ∧
    (∀ w1 s1 a1, s.isReady = false →
      initializeOp env w s = (w1, s1, true, a1) →
      ∃ rest, (loadJAR env w s cn sw sh).2.2.2 = a1 ++ rest) ∧
    (∀ msg, env.runErr = some msg →
      (s.isReady = true ∨ (initializeOp env w s).2.2.1 = true) →
      (loadJAR env w s cn sw sh).2.2.1 = Except.error msg ∧
      (loadJAR env w s cn sw sh).2.1.errorMsg = some msg ∧
      (loadJAR env w s cn sw sh).2.1.status = EmulatorStatus.error) := by
  refine ⟨?_, ?_, ?_⟩
  · intro w1 s1 a1 hnr hinit
    rw [loadJAR, if_neg (by simp [hnr]), hinit]
  · intro w1 s1 a1 hnr hinit
    rw [loadJAR, if_neg (by simp [hnr]), hinit]
    exact ⟨_, rfl⟩
  · intro msg hre hor
    by_cases hr : s.isReady
    · rw [loadJAR, if_pos hr]
      cases hj : s.jarUrl <;> by_cases hc : env.hasContainer <;>
        simp [runBody, hre, hj, hc]
    · rcases hor with hor | hok
      · exact absurd hor hr
      · rw [loadJAR, if_neg hr]
        rcases hI : initializeOp env w s with ⟨w1, s1, b, a1⟩
        rw [hI] at hok
        simp only at hok
        subst hok
        cases hj : s1.jarUrl <;> by_cases hc : env.hasContainer <;>
          simp [runBody, hre, hj, hc]

/-- Witness for C8: an init failure aborts the run; a run failure
stores the message and re-throws. -/
theorem claim_C8_witness :
    loadJAR ⟨false, none, none, true⟩ (initialWorld false)
        initialAdapterState "a.B".data 240 320 =
      (initialWorld false,
       ⟨EmulatorStatus.error, some "Failed to load CheerpJ".data, false, none, none⟩,
       Except.error "CheerpJ not initialized".data, [Action.injectScript]) ∧
    (loadJAR ⟨true, none, some "boom".data, true⟩ (initialWorld true)
        ⟨EmulatorStatus.idle, none, true, none, none⟩ "a.B".data 240 320).2.2.1 =
      Except.error "boom".data := by
  constructor
  · exact (claim_C8 ⟨false, none, none, true⟩ (initialWorld false)
      initialAdapterState "a.B".data 240 320).1 (initialWorld false)
      ⟨EmulatorStatus.error, some "Failed to load CheerpJ".data, false, none, none⟩
      [Action.injectScript] rfl (by decide)
  · exact ((claim_C8 ⟨true, none, some "boom".data, true⟩ (initialWorld true)
      ⟨EmulatorStatus.idle, none, true, none, none⟩ "a.B".data 240 320).2.2
      "boom".data rfl (Or.inl rfl)).1

end J2ME
